import Mathlib

/-!
Verification of `src/check_braces.py`, a line-by-line brace-balance scanner.

The script reads a file into a list of lines, then runs a loop over the lines
with a 1-based index `i`, maintaining an integer `balance`:

  balance += line.count('{'); balance -= line.count('}')
  if balance < 0: print(negative message); break
  if balance == 0 and i > 700: pass   -- dead branch

After the loop (whether it broke early or exhausted the lines) a final report
runs: if balance > 0 it prints the missing-braces message, otherwise it prints
"Balance is <balance>".

The embedding below models the list of lines as `List String`, the printed
lines as a `List String` output, and additionally records the value of the
`balance` variable after each processed line in a ghost `trace` field, so that
loop invariants can be stated.
-/

namespace CheckBraces

/-- `line.count(c)` from the source: number of occurrences of the character
`c` in `line`. -/
def charCount (line : String) (c : Char) : Nat :=
  line.toList.count c

/-- The net effect of one loop iteration on `balance` (source lines 8-9:
`balance += line.count('{')` followed by `balance -= line.count('}')`;
the loop only inspects `balance` after both updates, so they are combined). -/
def braceDelta (line : String) : Int :=
  (charCount line '{' : Int) - (charCount line '}' : Int)

/-- The f-string printed at source line 11:
`f"Negative balance at line {i}: {balance}"`. -/
def negativeMsg (i : Nat) (b : Int) : String :=
  "Negative balance at line " ++ toString i ++ ": " ++ toString b

/-- The f-string printed at source line 18:
`f"Missing {balance} closing braces at end of file"`. -/
def missingMsg (b : Int) : String :=
  "Missing " ++ toString b ++ " closing braces at end of file"

/-- The f-string printed at source line 20: `f"Balance is {balance}"`. -/
def balanceMsg (b : Int) : String :=
  "Balance is " ++ toString b

/-- State of the scan loop when it stops: the final value of the `balance`
variable, the (ghost) list of values `balance` held at the end of each
processed line, and the lines printed inside the loop. -/
structure ScanResult where
  balance : Int
  trace : List Int
  output : List String
  deriving Repr, DecidableEq

/-- The scan loop of source lines 7-15, called with the remaining lines, the
current 1-based index `i` and the current `balance`.  The breaking iteration
prints the negative-balance message and stops; the `balance == 0 and i > 700`
branch is `pass` in the source, so both arms of that conditional continue the
loop identically. -/
def scanLoop : List String → Nat → Int → ScanResult
  | [], _, bal => ⟨bal, [], []⟩
  | line :: rest, i, bal =>
    let bal' := bal + braceDelta line
    if bal' < 0 then
      ⟨bal', [bal'], [negativeMsg i bal']⟩
    else if bal' = 0 ∧ 700 < i then
      let r := scanLoop rest (i + 1) bal'
      ⟨r.balance, bal' :: r.trace, r.output⟩
    else
      let r := scanLoop rest (i + 1) bal'
      ⟨r.balance, bal' :: r.trace, r.output⟩

/-- The final report of source lines 17-20, applied to the final `balance`. -/
def finalReport (b : Int) : String :=
  if b > 0 then missingMsg b else balanceMsg b

/-- The whole script on a given list of lines: run the loop starting from
index 1 and balance 0, then append the final report to whatever the loop
printed. -/
def check_braces (lines : List String) : List String :=
  let r := scanLoop lines 1 0
  r.output ++ [finalReport r.balance]

/-- The running balance after the first `k` lines: total open braces minus
total close braces occurring in lines `1..k`. -/
def prefixBalance (lines : List String) (k : Nat) : Int :=
  ((lines.take k).map braceDelta).sum

/-- Total number of open-brace characters in the whole input. -/
def totalOpen (lines : List String) : Nat :=
  (lines.map (fun l => charCount l '{')).sum

/-- Total number of close-brace characters in the whole input. -/
def totalClose (lines : List String) : Nat :=
  (lines.map (fun l => charCount l '}')).sum

/-- The scan loop with the dead `balance == 0 and i > 700` branch removed,
used to state that the branch has no observable effect. -/
def scanLoopClean : List String → Nat → Int → ScanResult
  | [], _, bal => ⟨bal, [], []⟩
  | line :: rest, i, bal =>
    let bal' := bal + braceDelta line
    if bal' < 0 then
      ⟨bal', [bal'], [negativeMsg i bal']⟩
    else
      let r := scanLoopClean rest (i + 1) bal'
      ⟨r.balance, bal' :: r.trace, r.output⟩

/-- The whole script with the dead branch removed. -/
def check_braces_clean (lines : List String) : List String :=
  let r := scanLoopClean lines 1 0
  r.output ++ [finalReport r.balance]

/-- The module body including the file read (source lines 3-4): the read is
modelled as an `Except` value supplied by the environment; the `with open`
statement has no surrounding try/except, so a read failure propagates and
nothing after it runs. -/
def runProgram (readResult : Except String (List String)) :
    Except String (List String) :=
  match readResult with
  | .error e => .error e
  | .ok lines => .ok (check_braces lines)

theorem prefixBalance_zero (lines : List String) : prefixBalance lines 0 = 0 :=
  rfl

theorem prefixBalance_nil (k : Nat) : prefixBalance [] k = 0 := by
  simp [prefixBalance]

theorem prefixBalance_cons_succ (l : String) (rest : List String) (k : Nat) :
    prefixBalance (l :: rest) (k + 1) = braceDelta l + prefixBalance rest k := by
  simp [prefixBalance]

theorem prefixBalance_length (lines : List String) :
    prefixBalance lines lines.length =
      (totalOpen lines : Int) - (totalClose lines : Int) := by
  induction lines with
  | nil => simp [prefixBalance_nil, totalOpen, totalClose]
  | cons l rest ih =>
    rw [List.length_cons, prefixBalance_cons_succ, ih]
    simp only [totalOpen, totalClose, List.map_cons, List.sum_cons, braceDelta]
    push_cast
    ring

theorem scanLoop_nil (i : Nat) (bal : Int) : scanLoop [] i bal = ⟨bal, [], []⟩ :=
  rfl

theorem scanLoop_cons_neg (l : String) (rest : List String) (i : Nat) (bal : Int)
    (h : bal + braceDelta l < 0) :
    scanLoop (l :: rest) i bal =
      ⟨bal + braceDelta l, [bal + braceDelta l],
        [negativeMsg i (bal + braceDelta l)]⟩ := by
  simp only [scanLoop]
  rw [if_pos h]

theorem scanLoop_cons_nonneg (l : String) (rest : List String) (i : Nat)
    (bal : Int) (h : ¬bal + braceDelta l < 0) :
    scanLoop (l :: rest) i bal =
      ⟨(scanLoop rest (i + 1) (bal + braceDelta l)).balance,
        (bal + braceDelta l) :: (scanLoop rest (i + 1) (bal + braceDelta l)).trace,
        (scanLoop rest (i + 1) (bal + braceDelta l)).output⟩ := by
  simp only [scanLoop]
  rw [if_neg h, ite_self]

theorem scanLoop_trace_getD (lines : List String) : ∀ (i : Nat) (bal : Int)
    (k : Nat), k < (scanLoop lines i bal).trace.length →
    (scanLoop lines i bal).trace.getD k 0 = bal + prefixBalance lines (k + 1) := by
  induction lines with
  | nil =>
    intro i bal k h
    rw [scanLoop_nil] at h
    exact absurd h (by simp)
  | cons l rest ih =>
    intro i bal k h
    by_cases hneg : bal + braceDelta l < 0
    · rw [scanLoop_cons_neg l rest i bal hneg] at h ⊢
      simp only [List.length_cons, List.length_nil] at h
      have hk : k = 0 := by omega
      subst hk
      simp [prefixBalance_cons_succ, prefixBalance_zero]
    · rw [scanLoop_cons_nonneg l rest i bal hneg] at h ⊢
      match k with
      | 0 => simp [prefixBalance_cons_succ, prefixBalance_zero]
      | k + 1 =>
        simp only [List.length_cons, Nat.add_lt_add_iff_right] at h
        rw [List.getD_cons_succ, ih (i + 1) (bal + braceDelta l) k h,
          prefixBalance_cons_succ]
        ring

theorem scanLoop_no_neg (lines : List String) : ∀ (i : Nat) (bal : Int),
    (∀ k, 0 < k → k ≤ lines.length → 0 ≤ bal + prefixBalance lines k) →
    (scanLoop lines i bal).balance = bal + prefixBalance lines lines.length ∧
    (scanLoop lines i bal).output = [] ∧
    (scanLoop lines i bal).trace.length = lines.length := by
  induction lines with
  | nil =>
    intro i bal _
    simp [scanLoop_nil, prefixBalance_nil]
  | cons l rest ih =>
    intro i bal hpos
    have h1 : 0 ≤ bal + braceDelta l := by
      have := hpos 1 Nat.one_pos (by simp)
      rwa [prefixBalance_cons_succ, prefixBalance_zero, add_zero] at this
    have hneg : ¬bal + braceDelta l < 0 := not_lt.mpr h1
    rw [scanLoop_cons_nonneg l rest i bal hneg]
    have hrest : ∀ k, 0 < k → k ≤ rest.length →
        0 ≤ bal + braceDelta l + prefixBalance rest k := by
      intro k hk hk'
      have := hpos (k + 1) (Nat.succ_pos k) (by simpa using Nat.succ_le_succ hk')
      rw [prefixBalance_cons_succ] at this
      linarith
    obtain ⟨hb, ho, ht⟩ := ih (i + 1) (bal + braceDelta l) hrest
    refine ⟨?_, ho, by simp [ht]⟩
    rw [hb, List.length_cons, prefixBalance_cons_succ]
    ring

theorem scanLoop_break (lines : List String) : ∀ (i : Nat) (bal : Int) (k : Nat),
    k < lines.length →
    (∀ j, j < k → 0 ≤ bal + prefixBalance lines (j + 1)) →
    bal + prefixBalance lines (k + 1) < 0 →
    (scanLoop lines i bal).balance = bal + prefixBalance lines (k + 1) ∧
    (scanLoop lines i bal).output =
      [negativeMsg (i + k) (bal + prefixBalance lines (k + 1))] ∧
    (scanLoop lines i bal).trace.length = k + 1 := by
  induction lines with
  | nil =>
    intro i bal k hk _ _
    exact absurd hk (by simp)
  | cons l rest ih =>
    intro i bal k hk hprev hneg
    match k with
    | 0 =>
      rw [prefixBalance_cons_succ, prefixBalance_zero, add_zero] at hneg ⊢
      rw [scanLoop_cons_neg l rest i bal hneg]
      simp
    | k + 1 =>
      have h1 : 0 ≤ bal + braceDelta l := by
        have := hprev 0 (Nat.succ_pos k)
        rwa [prefixBalance_cons_succ, prefixBalance_zero, add_zero] at this
      rw [scanLoop_cons_nonneg l rest i bal (not_lt.mpr h1)]
      have hk' : k < rest.length := by
        simpa using Nat.lt_of_succ_lt_succ hk
      have hprev' : ∀ j, j < k → 0 ≤ bal + braceDelta l + prefixBalance rest (j + 1) := by
        intro j hj
        have := hprev (j + 1) (Nat.succ_lt_succ hj)
        rw [prefixBalance_cons_succ] at this
        linarith
      have hneg' : bal + braceDelta l + prefixBalance rest (k + 1) < 0 := by
        rw [prefixBalance_cons_succ] at hneg
        linarith
      obtain ⟨hb, ho, ht⟩ := ih (i + 1) (bal + braceDelta l) k hk' hprev' hneg'
      rw [prefixBalance_cons_succ]
      refine ⟨by rw [hb]; ring, ?_, by simp [ht]⟩
      rw [ho]
      have harith : bal + braceDelta l + prefixBalance rest (k + 1) =
          bal + (braceDelta l + prefixBalance rest (k + 1)) := by ring
      rw [harith]
      have hidx : i + 1 + k = i + (k + 1) := by omega
      rw [hidx]

theorem scanLoop_pos (lines : List String) : ∀ (i : Nat) (bal : Int),
    0 < (scanLoop lines i bal).balance →
    (scanLoop lines i bal).output = [] ∧
    (scanLoop lines i bal).trace.length = lines.length ∧
    ∀ k, 0 < k → k ≤ lines.length → 0 ≤ bal + prefixBalance lines k := by
  induction lines with
  | nil =>
    intro i bal _
    refine ⟨rfl, rfl, ?_⟩
    intro k hk hk'
    exact absurd (Nat.lt_of_lt_of_le hk hk') (by simp)
  | cons l rest ih =>
    intro i bal hpos
    by_cases hneg : bal + braceDelta l < 0
    · rw [scanLoop_cons_neg l rest i bal hneg] at hpos
      exact absurd hpos (by simp; linarith)
    · rw [scanLoop_cons_nonneg l rest i bal hneg] at hpos ⊢
      obtain ⟨ho, ht, hall⟩ := ih (i + 1) (bal + braceDelta l) hpos
      refine ⟨ho, by simp [ht], ?_⟩
      intro k hk hk'
      match k with
      | 1 =>
        rw [prefixBalance_cons_succ, prefixBalance_zero, add_zero]
        exact not_lt.mp hneg
      | k + 2 =>
        have := hall (k + 1) (Nat.succ_pos k) (by simpa using Nat.le_of_succ_le_succ hk')
        rw [prefixBalance_cons_succ]
        linarith

theorem firstNeg_or_none (lines : List String) :
    (∀ k, k ≤ lines.length → 0 ≤ prefixBalance lines k) ∨
    (∃ k, k < lines.length ∧ prefixBalance lines (k + 1) < 0 ∧
      ∀ j, j < k → 0 ≤ prefixBalance lines (j + 1)) := by
  by_cases hall : ∀ k, k ≤ lines.length → 0 ≤ prefixBalance lines k
  · exact Or.inl hall
  · right
    push_neg at hall
    have hex : ∃ m, m ≤ lines.length ∧ prefixBalance lines m < 0 := hall
    have hfind := Nat.find_spec hex
    set m := Nat.find hex with hm
    have hm1 : 1 ≤ m := by
      by_contra hcon
      have hm0 : m = 0 := by omega
      have := hfind.2
      rw [hm0, prefixBalance_zero] at this
      exact absurd this (by norm_num)
    refine ⟨m - 1, ?_, ?_, ?_⟩
    · omega
    · have : m - 1 + 1 = m := by omega
      rw [this]
      exact hfind.2
    · intro j hj
      have hjm : j + 1 < m := by omega
      have := Nat.find_min hex hjm
      push_neg at this
      by_contra hcon
      push_neg at hcon
      exact absurd (this (by omega)) (by omega)

theorem scanLoop_eq_clean (lines : List String) : ∀ (i : Nat) (bal : Int),
    scanLoop lines i bal = scanLoopClean lines i bal := by
  induction lines with
  | nil =>
    intro i bal
    rfl
  | cons l rest ih =>
    intro i bal
    by_cases hneg : bal + braceDelta l < 0
    · rw [scanLoop_cons_neg l rest i bal hneg]
      simp only [scanLoopClean]
      rw [if_pos hneg]
    · rw [scanLoop_cons_nonneg l rest i bal hneg]
      simp only [scanLoopClean]
      rw [if_neg hneg, ih]

/-- C1 counterexample: on the single-line input `"}"` the running balance
first drops below zero at line 1 with value -1, but the program's output is
NOT the single negative-balance line — the final report still runs after the
`break` and prints a second line. -/
theorem c1_counterexample :
    prefixBalance ["\x7d"] 1 = -1 ∧
    check_braces ["\x7d"] = [negativeMsg 1 (-1), balanceMsg (-1)] ∧
    check_braces ["\x7d"] ≠ [negativeMsg 1 (-1)] := by
  refine ⟨by decide, by decide, by decide⟩

/-- C1 (corrected): when the running balance first drops below zero at
1-based line `k + 1` with value `b = prefixBalance lines (k + 1)`, the output
is exactly the two lines `Negative balance at line <k+1>: <b>` followed by
`Balance is <b>` (the final report executes after the `break` and, since
`b < 0`, takes the else branch), and no lines after line `k + 1` are
processed (the trace has exactly `k + 1` entries). -/
theorem c1_neg_break (lines : List String) (k : Nat)
    (hk : k < lines.length)
    (hfirst : ∀ j, j < k → 0 ≤ prefixBalance lines (j + 1))
    (hneg : prefixBalance lines (k + 1) < 0) :
    check_braces lines =
      [negativeMsg (k + 1) (prefixBalance lines (k + 1)),
        balanceMsg (prefixBalance lines (k + 1))] ∧
    (scanLoop lines 1 0).trace.length = k + 1 := by
  obtain ⟨hb, ho, ht⟩ := scanLoop_break lines 1 0 k hk
    (fun j hj => by simpa using hfirst j hj) (by simpa using hneg)
  rw [zero_add] at hb ho
  rw [Nat.add_comm 1 k] at ho
  refine ⟨?_, ht⟩
  simp only [check_braces]
  rw [ho, hb]
  unfold finalReport
  rw [if_neg (not_lt.mpr (le_of_lt hneg))]
  rfl

theorem c1_witness :
    (1 < (["\x7b", "\x7d\x7d"] : List String).length ∧
      (∀ j, j < 1 → 0 ≤ prefixBalance ["\x7b", "\x7d\x7d"] (j + 1)) ∧
      prefixBalance ["\x7b", "\x7d\x7d"] 2 < 0) ∧
    (check_braces ["\x7b", "\x7d\x7d"] =
      [negativeMsg 2 (prefixBalance ["\x7b", "\x7d\x7d"] 2),
        balanceMsg (prefixBalance ["\x7b", "\x7d\x7d"] 2)] ∧
      (scanLoop ["\x7b", "\x7d\x7d"] 1 0).trace.length = 2) :=
  ⟨⟨by decide, by decide, by decide⟩,
    c1_neg_break ["\x7b", "\x7d\x7d"] 1 (by decide) (by decide) (by decide)⟩

/-- C2 counterexample: the input `"}}"` makes the program emit TWO distinct
message-shape lines in one run (the negative-balance message and the
`Balance is` message), so the three shapes are not mutually exclusive. -/
theorem c2_counterexample :
    check_braces ["\x7d\x7d"] = [negativeMsg 1 (-2), balanceMsg (-2)] ∧
    negativeMsg 1 (-2) ≠ balanceMsg (-2) := by
  refine ⟨by decide, by decide⟩

/-- C2 (corrected): every run's output is one of three forms, but the forms
are not mutually exclusive messages: either a single `Missing ...` line (final
balance positive), or a single `Balance is ...` line (no break and final
balance zero), or — when the balance goes negative — the negative-balance
line FOLLOWED by a `Balance is ...` line reporting the same negative value,
because the final report executes even after an early break. -/
theorem c2_output_shapes (lines : List String) :
    ∃ b : Int,
      (0 < b ∧ check_braces lines = [missingMsg b]) ∨
      (b = 0 ∧ check_braces lines = [balanceMsg b]) ∨
      (b < 0 ∧ ∃ L, check_braces lines = [negativeMsg L b, balanceMsg b]) := by
  rcases firstNeg_or_none lines with hall | ⟨k, hk, hneg, hprev⟩
  · obtain ⟨hb, ho, _⟩ := scanLoop_no_neg lines 1 0
      (fun k _ hk => by simpa using hall k hk)
    rw [zero_add] at hb
    refine ⟨prefixBalance lines lines.length, ?_⟩
    have hge : 0 ≤ prefixBalance lines lines.length := hall _ le_rfl
    by_cases hgt : 0 < prefixBalance lines lines.length
    · left
      refine ⟨hgt, ?_⟩
      simp only [check_braces]
      rw [ho, hb]
      unfold finalReport
      rw [if_pos hgt]
      rfl
    · right; left
      have hz : prefixBalance lines lines.length = 0 := le_antisymm (not_lt.mp hgt) hge
      refine ⟨hz, ?_⟩
      simp only [check_braces]
      rw [ho, hb]
      unfold finalReport
      rw [if_neg hgt]
      rfl
  · obtain ⟨hb, ho, _⟩ := scanLoop_break lines 1 0 k hk
      (fun j hj => by simpa using hprev j hj) (by simpa using hneg)
    rw [zero_add] at hb ho
    refine ⟨prefixBalance lines (k + 1), Or.inr (Or.inr ⟨hneg, 1 + k, ?_⟩)⟩
    simp only [check_braces]
    rw [ho, hb]
    unfold finalReport
    rw [if_neg (not_lt.mpr (le_of_lt hneg))]
    rfl

/-- C3 (confirmed): when the total open-brace count exceeds the total
close-brace count and the running balance is never negative at the end of any
line, the output is the single line
`Missing <totalOpen - totalClose> closing braces at end of file`. -/
theorem c3_missing_braces (lines : List String)
    (hcount : totalClose lines < totalOpen lines)
    (hnn : ∀ k, k ≤ lines.length → 0 ≤ prefixBalance lines k) :
    check_braces lines =
      [missingMsg ((totalOpen lines : Int) - (totalClose lines : Int))] := by
  obtain ⟨hb, ho, _⟩ := scanLoop_no_neg lines 1 0
    (fun k _ hk => by simpa using hnn k hk)
  rw [zero_add, prefixBalance_length] at hb
  simp only [check_braces]
  rw [ho, hb]
  unfold finalReport
  have hgt : (0 : Int) < (totalOpen lines : Int) - (totalClose lines : Int) := by
    omega
  rw [if_pos hgt]
  rfl

theorem c3_witness :
    (totalClose ["\x7b", "\x7b", "\x7d"] < totalOpen ["\x7b", "\x7b", "\x7d"] ∧
      ∀ k, k ≤ (["\x7b", "\x7b", "\x7d"] : List String).length →
        0 ≤ prefixBalance ["\x7b", "\x7b", "\x7d"] k) ∧
    check_braces ["\x7b", "\x7b", "\x7d"] =
      [missingMsg ((totalOpen ["\x7b", "\x7b", "\x7d"] : Int) -
        (totalClose ["\x7b", "\x7b", "\x7d"] : Int))] :=
  ⟨⟨by decide, by decide⟩,
    c3_missing_braces ["\x7b", "\x7b", "\x7d"] (by decide) (by decide)⟩

/-- C4 (confirmed): when total open-brace and close-brace counts are equal
and the running balance is never negative at the end of any line (this
includes the empty file), the output is exactly `Balance is 0`. -/
theorem c4_balanced (lines : List String)
    (hcount : totalOpen lines = totalClose lines)
    (hnn : ∀ k, k ≤ lines.length → 0 ≤ prefixBalance lines k) :
    check_braces lines = ["Balance is 0"] := by
  obtain ⟨hb, ho, _⟩ := scanLoop_no_neg lines 1 0
    (fun k _ hk => by simpa using hnn k hk)
  rw [zero_add, prefixBalance_length, hcount, sub_self] at hb
  simp only [check_braces]
  rw [ho, hb]
  rfl

theorem c4_witness :
    (totalOpen ([] : List String) = totalClose ([] : List String) ∧
      ∀ k, k ≤ ([] : List String).length → 0 ≤ prefixBalance [] k) ∧
    check_braces [] = ["Balance is 0"] :=
  ⟨⟨by decide, by decide⟩, c4_balanced [] (by decide) (by decide)⟩

/-- C5 (confirmed) — loop invariant: after each processed line (1-based line
`k + 1`, i.e. trace position `k`, for every line the loop reaches before it
stops), the `balance` variable equals the total number of open braces minus
the total number of close braces occurring in lines 1 through `k + 1`. -/
theorem c5_trace_invariant (lines : List String) (k : Nat)
    (h : k < (scanLoop lines 1 0).trace.length) :
    (scanLoop lines 1 0).trace.getD k 0 = prefixBalance lines (k + 1) := by
  simpa using scanLoop_trace_getD lines 1 0 k h

theorem c5_witness :
    0 < (scanLoop ["\x7b"] 1 0).trace.length ∧
    (scanLoop ["\x7b"] 1 0).trace.getD 0 0 = prefixBalance ["\x7b"] 1 :=
  ⟨by decide, c5_trace_invariant ["\x7b"] 0 (by decide)⟩

/-- C6 (confirmed): a strictly positive final balance is only possible when
the loop exhausted all lines (the trace covers every line) without ever
printing the negative-balance message, and the running balance was
nonnegative at the end of every line; hence the non-missing branch of the
final report only ever sees a balance that is zero or negative. -/
theorem c6_positive_balance (lines : List String)
    (hpos : 0 < (scanLoop lines 1 0).balance) :
    (scanLoop lines 1 0).output = [] ∧
    (scanLoop lines 1 0).trace.length = lines.length ∧
    ∀ k, k ≤ lines.length → 0 ≤ prefixBalance lines k := by
  obtain ⟨ho, ht, hall⟩ := scanLoop_pos lines 1 0 hpos
  refine ⟨ho, ht, ?_⟩
  intro k hk
  match k with
  | 0 => simp [prefixBalance_zero]
  | k + 1 => simpa using hall (k + 1) (Nat.succ_pos k) hk

theorem c6_witness :
    0 < (scanLoop ["\x7b"] 1 0).balance ∧
    ((scanLoop ["\x7b"] 1 0).output = [] ∧
      (scanLoop ["\x7b"] 1 0).trace.length = (["\x7b"] : List String).length ∧
      ∀ k, k ≤ (["\x7b"] : List String).length → 0 ≤ prefixBalance ["\x7b"] k) :=
  ⟨by decide, c6_positive_balance ["\x7b"] (by decide)⟩

/-- C7 (confirmed): the `balance == 0 and i > 700` branch of the loop is
`pass` in the source, so removing it changes nothing: the scan with the
branch present produces exactly the same output as the scan with it
removed, on every input. -/
theorem c7_dead_branch (lines : List String) :
    check_braces lines = check_braces_clean lines := by
  simp only [check_braces, check_braces_clean, scanLoop_eq_clean]

/-- C8 (confirmed): the file read has no surrounding handler in the source,
so a read failure propagates unchanged to the caller and the scan produces
no output in that case (the result is exactly the original error). -/
theorem c8_read_error (e : String) :
    runProgram (Except.error e) = Except.error e :=
  rfl

/-- C9 (confirmed): the scan is deterministic — it is a pure function of the
file content, so two runs on the same unmodified content produce identical
output. -/
theorem c9_deterministic (lines1 lines2 : List String) (h : lines1 = lines2) :
    check_braces lines1 = check_braces lines2 := by
  rw [h]

theorem c9_witness :
    (["\x7b", "\x7d"] : List String) = ["\x7b", "\x7d"] ∧
    check_braces ["\x7b", "\x7d"] = check_braces ["\x7b", "\x7d"] :=
  ⟨rfl, c9_deterministic ["\x7b", "\x7d"] ["\x7b", "\x7d"] rfl⟩

/-- C10 (confirmed) — frame property: when the loop breaks at 1-based line
`k + 1` with negative balance `b = prefixBalance lines (k + 1)`, the
`balance` variable is not modified after the `break`: the loop's final
balance equals `b`, the value in the printed negative-balance message, and
the last line the program prints is `Balance is <b>` for that same value. -/
theorem c10_balance_frame (lines : List String) (k : Nat)
    (hk : k < lines.length)
    (hfirst : ∀ j, j < k → 0 ≤ prefixBalance lines (j + 1))
    (hneg : prefixBalance lines (k + 1) < 0) :
    (scanLoop lines 1 0).balance = prefixBalance lines (k + 1) ∧
    (scanLoop lines 1 0).output =
      [negativeMsg (k + 1) (prefixBalance lines (k + 1))] ∧
    (check_braces lines).getLast? =
      some (balanceMsg ((scanLoop lines 1 0).balance)) := by
  obtain ⟨hb, ho, _⟩ := scanLoop_break lines 1 0 k hk
    (fun j hj => by simpa using hfirst j hj) (by simpa using hneg)
  rw [zero_add] at hb ho
  rw [Nat.add_comm 1 k] at ho
  refine ⟨hb, ho, ?_⟩
  simp only [check_braces]
  rw [ho, hb]
  unfold finalReport
  rw [if_neg (not_lt.mpr (le_of_lt hneg))]
  rfl

theorem c10_witness :
    (0 < (["\x7b\x7d\x7d"] : List String).length ∧
      (∀ j, j < 0 → 0 ≤ prefixBalance ["\x7b\x7d\x7d"] (j + 1)) ∧
      prefixBalance ["\x7b\x7d\x7d"] 1 < 0) ∧
    ((scanLoop ["\x7b\x7d\x7d"] 1 0).balance = prefixBalance ["\x7b\x7d\x7d"] 1 ∧
      (scanLoop ["\x7b\x7d\x7d"] 1 0).output =
        [negativeMsg 1 (prefixBalance ["\x7b\x7d\x7d"] 1)] ∧
      (check_braces ["\x7b\x7d\x7d"]).getLast? =
        some (balanceMsg ((scanLoop ["\x7b\x7d\x7d"] 1 0).balance))) :=
  ⟨⟨by decide, by decide, by decide⟩,
    c10_balance_frame ["\x7b\x7d\x7d"] 0 (by decide) (by decide) (by decide)⟩

end CheckBraces
